import Mathlib

/-!
A shallow embedding of the Parser component of this htmlparser2 fork
(file src/Parser.ts) together with theorems about its tag-nesting,
auto-closing, void-element, self-closing, position-bookkeeping and
attribute-accumulation behaviour.

The embedding follows the TypeScript source closely.  The JS open-element
stack (an array whose last entry is the top) is modelled as a Lean list
whose HEAD is the top of the stack; `Array.prototype.lastIndexOf` (the
occurrence closest to the JS end, i.e. closest to the top) therefore
becomes a search for the first occurrence from the head.  The mutually
recursive trio onclosetag / onopentagname (auto-close loop) is defined
with an explicit fuel argument; the public wrappers supply enough fuel
for every call chain that can actually occur.  Handler callbacks are
modelled by presence flags in the configuration; an emitted event is a
callback invocation, so an event is emitted only when the corresponding
callback is registered, exactly as in the source.
-/

namespace Htmlparser

set_option linter.unusedVariables false

/-- ASCII lowercasing of a string, the model of the JS toLowerCase calls on
tag and attribute names (defined over the character list so that it reduces
inside the kernel). -/
def strLower (s : String) : String := String.mk (s.data.map Char.toLower)

/-- Table of form control tag names (source constant formTags). -/
def formTags : List String :=
  ["input", "option", "optgroup", "select", "button", "datalist", "textarea"]

/-- Singleton set used by many auto-close entries (source constant pTag). -/
def pTag : List String := ["p"]

/-- Auto-close table: opening the key closes top-of-stack members of the value
set (source constant openImpliesClose, modelled as a partial map). -/
def openImpliesClose (name : String) : Option (List String) :=
  match name with
  | "tr" => some ["tr", "th", "td"]
  | "th" => some ["th"]
  | "td" => some ["thead", "th", "td"]
  | "body" => some ["head", "link", "script"]
  | "li" => some ["li"]
  | "p" => some pTag
  | "h1" => some pTag
  | "h2" => some pTag
  | "h3" => some pTag
  | "h4" => some pTag
  | "h5" => some pTag
  | "h6" => some pTag
  | "select" => some formTags
  | "input" => some formTags
  | "output" => some formTags
  | "button" => some formTags
  | "datalist" => some formTags
  | "textarea" => some formTags
  | "option" => some ["option"]
  | "optgroup" => some ["optgroup", "option"]
  | "dd" => some ["dt", "dd"]
  | "dt" => some ["dt", "dd"]
  | "address" => some pTag
  | "article" => some pTag
  | "aside" => some pTag
  | "blockquote" => some pTag
  | "details" => some pTag
  | "div" => some pTag
  | "dl" => some pTag
  | "fieldset" => some pTag
  | "figcaption" => some pTag
  | "figure" => some pTag
  | "footer" => some pTag
  | "form" => some pTag
  | "header" => some pTag
  | "hr" => some pTag
  | "main" => some pTag
  | "nav" => some pTag
  | "ol" => some pTag
  | "pre" => some pTag
  | "section" => some pTag
  | "table" => some pTag
  | "ul" => some pTag
  | "rt" => some ["rt", "rp"]
  | "rp" => some ["rt", "rp"]
  | "tbody" => some ["thead", "tbody"]
  | "tfoot" => some ["thead", "tbody"]
  | _ => none

/-- Void element names (source constant voidElements). -/
def voidElements : List String :=
  ["area", "base", "basefont", "br", "col", "command", "embed", "frame", "hr",
   "img", "input", "isindex", "keygen", "link", "meta", "param", "source",
   "track", "wbr"]

/-- Foreign namespace element names (source constant foreignContextElements). -/
def foreignContextElements : List String := ["math", "svg"]

/-- HTML integration point element names (source constant
htmlIntegrationElements). -/
def htmlIntegrationElements : List String :=
  ["mi", "mo", "mn", "ms", "mtext", "annotation-xml", "foreignObject", "desc",
   "title"]

/-- Session configuration: resolved parser options plus one presence flag per
optional handler callback (the source checks cbs.onfoo for presence). -/
structure Config where
  xmlMode : Bool
  recognizeSelfClosing : Bool
  recognizeCDATA : Bool
  lowerCaseTagNames : Bool
  lowerCaseAttributeNames : Bool
  hasOnparserinit : Bool
  hasOnreset : Bool
  hasOnend : Bool
  hasOnerror : Bool
  hasOnclosetag : Bool
  hasOnopentagname : Bool
  hasOnattribute : Bool
  hasOnopentag : Bool
  hasOntext : Bool
  hasOncomment : Bool
  hasOncommentend : Bool
  hasOncdatastart : Bool
  hasOncdataend : Bool
  hasOnprocessinginstruction : Bool
  hasOnerbexpression : Bool
  hasOnerbscriptlet : Bool
deriving DecidableEq, Repr

/-- Kind of quoting of an attribute value: double quote, single quote,
unquoted value, or no value at all (source: string, null or undefined). -/
inductive AttrQuote where
  | double
  | single
  | unquoted
  | missing
deriving DecidableEq, Repr

/-- A structured event forwarded to the handler (one constructor per handler
callback invocation performed by the Parser). -/
inductive PEvent where
  | opentagname (name : String)
  | opentag (name : String) (attribs : List (String × String))
  | closetag (name : String)
  | attribute (name : String) (value : String) (quote : AttrQuote)
  | text (data : String)
  | comment (data : String)
  | commentend
  | cdatastart
  | cdataend
  | procinst (name : String) (data : String)
  | erbexpression (data : String)
  | erbscriptlet (data : String)
  | errorEv
  | endEv
  | resetEv
  | initEv
deriving DecidableEq, Repr

/-- Readings of the tokenizer position at the moment a lexical event is
delivered: sectionStart and getAbsoluteIndex() (the tokenizer itself is an
external collaborator, so its cursor values are inputs of the model). -/
structure TokPos where
  sectionStart : Int
  absoluteIndex : Int
deriving DecidableEq, Repr

/-- The mutable fields of a Parser instance.  The stack list head is the top
of the JS array; the foreignContext list head is the innermost entry. -/
structure PState where
  startIndex : Int
  endIndex : Option Int
  tagname : String
  attribname : String
  attribvalue : String
  attribs : Option (List (String × String))
  stack : List String
  foreignContext : List Bool
deriving DecidableEq, Repr

/-- Field values of a freshly constructed Parser. -/
def initState : PState :=
  { startIndex := 0, endIndex := none, tagname := "", attribname := "",
    attribvalue := "", attribs := none, stack := [], foreignContext := [] }

/-- Source: Parser.updatePosition (written as a single record update: the two
branches of the source assign only startIndex, and endIndex is then set to
the absolute tokenizer cursor). -/
def updatePosition (tp : TokPos) (initialOffset : Int) (s : PState) : PState :=
  { s with
    startIndex :=
      match s.endIndex with
      | none =>
          if tp.sectionStart ≤ initialOffset then 0
          else tp.sectionStart - initialOffset
      | some e => e + 1,
    endIndex := some tp.absoluteIndex }

/-- Source: Parser.isVoidElement. -/
def isVoidElement (cfg : Config) (name : String) : Bool :=
  !cfg.xmlMode && voidElements.contains name

/-- Source: Parser.ontext (updatePosition(1) then a decrement of endIndex). -/
def ontextP (cfg : Config) (data : String) (tp : TokPos) (s : PState) :
    PState × List PEvent :=
  let s := updatePosition tp 1 s
  let s := { s with endIndex := s.endIndex.map (· - 1) }
  (s, if cfg.hasOntext then [PEvent.text data] else [])

/-- Position (from the top of the stack, zero based) of the occurrence of a
name closest to the top; this is Array.prototype.lastIndexOf of the source
transported to the head-is-top list representation. -/
def stackIndexOf (name : String) : List String → Option Nat
  | [] => none
  | x :: xs => if x = name then some 0 else (stackIndexOf name xs).map (· + 1)

/-- Source: Parser.onopentagend: update the position, report the open-tag
event with the accumulated attribute map if one was being collected (and
clear it), then synthesize a close event when the tag is void and a
close-tag callback is registered, and finally clear the tag name. -/
def onopentagendP (cfg : Config) (tp : TokPos) (s : PState) :
    PState × List PEvent :=
  match s.attribs with
  | some ab =>
      ({ updatePosition tp 1 s with tagname := "", attribs := none },
        (if cfg.hasOnopentag then [PEvent.opentag s.tagname ab] else []) ++
        (if cfg.hasOnclosetag && isVoidElement cfg s.tagname then
          [PEvent.closetag s.tagname] else []))
  | none =>
      ({ updatePosition tp 1 s with tagname := "" },
        (if cfg.hasOnclosetag && isVoidElement cfg s.tagname then
          [PEvent.closetag s.tagname] else []))

/-- Source: Parser.closeCurrentTag: the tag name is captured before
onopentagend clears it, and the just-opened tag is popped and closed when it
sits on top of the stack (the pop is unconditional inside that branch; only
the event is guarded by callback presence). -/
def closeCurrentTagP (cfg : Config) (tp : TokPos) (s : PState) :
    PState × List PEvent :=
  if (onopentagendP cfg tp s).1.stack.head? = some s.tagname then
    ({ (onopentagendP cfg tp s).1 with
        stack := (onopentagendP cfg tp s).1.stack.tail },
      (onopentagendP cfg tp s).2 ++
        (if cfg.hasOnclosetag then [PEvent.closetag s.tagname] else []))
  else onopentagendP cfg tp s

mutual

/-- Source: Parser.onclosetag.  The fuel argument bounds the recursion through
the stray-p/br recovery into onopentagname; the wrapper onclosetagP supplies
sufficient fuel. -/
def onclosetagF (fuel : Nat) (cfg : Config) (name : String) (tp : TokPos)
    (s : PState) : PState × List PEvent :=
  match fuel with
  | 0 => (s, [])
  | fuel + 1 =>
    let s := updatePosition tp 1 s
    let name := if cfg.lowerCaseTagNames then strLower name else name
    let s :=
      if foreignContextElements.contains name ||
          htmlIntegrationElements.contains name then
        { s with foreignContext := s.foreignContext.tail }
      else s
    if !s.stack.isEmpty && !isVoidElement cfg name then
      match stackIndexOf name s.stack with
      | some i =>
          if cfg.hasOnclosetag then
            ({ s with stack := s.stack.drop (i + 1) },
              (s.stack.take (i + 1)).map PEvent.closetag)
          else
            ({ s with stack := s.stack.drop (i + 1) }, [])
      | none =>
          if name = "p" && !cfg.xmlMode then
            let r1 := onopentagnameF fuel cfg name tp s
            let r2 := closeCurrentTagP cfg tp r1.1
            (r2.1, r1.2 ++ r2.2)
          else (s, [])
    else if !cfg.xmlMode && (name = "br" || name = "p") then
      let r1 := onopentagnameF fuel cfg name tp s
      let r2 := closeCurrentTagP cfg tp r1.1
      (r2.1, r1.2 ++ r2.2)
    else (s, [])

/-- Source: Parser.onopentagname. -/
def onopentagnameF (fuel : Nat) (cfg : Config) (name : String) (tp : TokPos)
    (s : PState) : PState × List PEvent :=
  match fuel with
  | 0 => (s, [])
  | fuel + 1 =>
    let name := if cfg.lowerCaseTagNames then strLower name else name
    let s := { s with tagname := name }
    let r :=
      if !cfg.xmlMode then
        match openImpliesClose name with
        | some closeSet => autoCloseF fuel cfg closeSet tp s
        | none => (s, ([] : List PEvent))
      else (s, ([] : List PEvent))
    let s :=
      if !isVoidElement cfg name then
        let s1 := { r.1 with stack := name :: r.1.stack }
        if foreignContextElements.contains name then
          { s1 with foreignContext := true :: s1.foreignContext }
        else if htmlIntegrationElements.contains name then
          { s1 with foreignContext := false :: s1.foreignContext }
        else s1
      else r.1
    let evs := r.2 ++
      (if cfg.hasOnopentagname then [PEvent.opentagname name] else [])
    let s := if cfg.hasOnopentag then { s with attribs := some [] } else s
    (s, evs)
termination_by structural fuel

/-- The while loop inside Parser.onopentagname: as long as the top of the
stack belongs to the auto-close set, invoke onclosetag on it. -/
def autoCloseF (fuel : Nat) (cfg : Config) (closeSet : List String)
    (tp : TokPos) (s : PState) : PState × List PEvent :=
  match fuel with
  | 0 => (s, [])
  | fuel + 1 =>
    match s.stack with
    | [] => (s, [])
    | el :: _ =>
      if closeSet.contains el then
        let r1 := onclosetagF fuel cfg el tp s
        let r2 := autoCloseF fuel cfg closeSet tp r1.1
        (r2.1, r1.2 ++ r2.2)
      else (s, [])
termination_by structural fuel

end

/-- Public wrapper for onclosetag with sufficient fuel. -/
def onclosetagP (cfg : Config) (name : String) (tp : TokPos) (s : PState) :
    PState × List PEvent :=
  onclosetagF (2 * s.stack.length + 4) cfg name tp s

/-- Public wrapper for onopentagname with sufficient fuel. -/
def onopentagnameP (cfg : Config) (name : String) (tp : TokPos) (s : PState) :
    PState × List PEvent :=
  onopentagnameF (2 * s.stack.length + 4) cfg name tp s

/-- Source: Parser.onselfclosingtag.  An out-of-bounds JS array read yields
undefined, which is falsy, hence getD false on the innermost entry. -/
def onselfclosingtagP (cfg : Config) (tp : TokPos) (s : PState) :
    PState × List PEvent :=
  if cfg.xmlMode || cfg.recognizeSelfClosing ||
      (s.foreignContext.head?.getD false) then
    closeCurrentTagP cfg tp s
  else
    onopentagendP cfg tp s

/-- Source: Parser.onattribname. -/
def onattribnameP (cfg : Config) (name : String) (s : PState) : PState :=
  { s with attribname :=
      if cfg.lowerCaseAttributeNames then strLower name else name }

/-- Source: Parser.onattribdata. -/
def onattribdataP (value : String) (s : PState) : PState :=
  { s with attribvalue := s.attribvalue ++ value }

/-- First-from-head association lookup, the model of reading an own property
of the attribs object. -/
def alookup (k : String) : List (String × String) → Option String
  | [] => none
  | p :: rest => if p.1 = k then some p.2 else alookup k rest

/-- Source: Parser.onattribend. -/
def onattribendP (cfg : Config) (quote : AttrQuote) (tp : TokPos)
    (s : PState) : PState × List PEvent :=
  let evs :=
    if cfg.hasOnattribute then
      [PEvent.attribute s.attribname s.attribvalue quote]
    else []
  let s :=
    match s.attribs with
    | some ab =>
        if alookup s.attribname ab = none then
          { s with attribs := some (ab ++ [(s.attribname, s.attribvalue)]) }
        else s
    | none => s
  ({ s with attribname := "", attribvalue := "" }, evs)

/-- Source: Parser.getInstructionName (prefix up to the first whitespace or
slash, then optional case folding). -/
def getInstructionName (cfg : Config) (value : String) : String :=
  let name := String.mk (value.toList.takeWhile
    (fun c => !(c.isWhitespace || c = '/')))
  if cfg.lowerCaseTagNames then strLower name else name

/-- Source: Parser.ondeclaration. -/
def ondeclarationP (cfg : Config) (value : String) (tp : TokPos)
    (s : PState) : PState × List PEvent :=
  (s, if cfg.hasOnprocessinginstruction then
        [PEvent.procinst ("!" ++ getInstructionName cfg value) ("!" ++ value)]
      else [])

/-- Source: Parser.onprocessinginstruction. -/
def onprocessinginstructionP (cfg : Config) (value : String) (tp : TokPos)
    (s : PState) : PState × List PEvent :=
  (s, if cfg.hasOnprocessinginstruction then
        [PEvent.procinst ("?" ++ getInstructionName cfg value) ("?" ++ value)]
      else [])

/-- Source: Parser.oncomment. -/
def oncommentP (cfg : Config) (value : String) (tp : TokPos) (s : PState) :
    PState × List PEvent :=
  (updatePosition tp 4 s,
    (if cfg.hasOncomment then [PEvent.comment value] else []) ++
    (if cfg.hasOncommentend then [PEvent.commentend] else []))

/-- Source: Parser.oncdata. -/
def oncdataP (cfg : Config) (value : String) (tp : TokPos) (s : PState) :
    PState × List PEvent :=
  let s := updatePosition tp 1 s
  if cfg.xmlMode || cfg.recognizeCDATA then
    (s, (if cfg.hasOncdatastart then [PEvent.cdatastart] else []) ++
        (if cfg.hasOntext then [PEvent.text value] else []) ++
        (if cfg.hasOncdataend then [PEvent.cdataend] else []))
  else
    oncommentP cfg ("[CDATA[" ++ value ++ "]]") tp s

/-- Source: Parser.onerror. -/
def onerrorP (cfg : Config) (tp : TokPos) (s : PState) :
    PState × List PEvent :=
  (s, if cfg.hasOnerror then [PEvent.errorEv] else [])

/-- Source: Parser.onend.  Note that the loop reads the stack entries from
the top downwards but never mutates the stack field. -/
def onendP (cfg : Config) (tp : TokPos) (s : PState) : PState × List PEvent :=
  (s, (if cfg.hasOnclosetag then s.stack.map PEvent.closetag else []) ++
      (if cfg.hasOnend then [PEvent.endEv] else []))

/-- Source: Parser.onerbexpression. -/
def onerbexpressionP (cfg : Config) (data : String) (tp : TokPos)
    (s : PState) : PState × List PEvent :=
  (s, if cfg.hasOnerbexpression then [PEvent.erbexpression data] else [])

/-- Source: Parser.onerbscriptlet. -/
def onerbscriptletP (cfg : Config) (data : String) (tp : TokPos)
    (s : PState) : PState × List PEvent :=
  (s, if cfg.hasOnerbscriptlet then [PEvent.erbscriptlet data] else [])

/-- Source: Parser.reset (the tokenizer reset touches only tokenizer state;
the Parser fields assigned by the method body are exactly these four). -/
def resetP (cfg : Config) (s : PState) : PState × List PEvent :=
  ({ s with tagname := "", attribname := "", attribs := none, stack := [] },
    (if cfg.hasOnreset then [PEvent.resetEv] else []) ++
    (if cfg.hasOnparserinit then [PEvent.initEv] else []))

/-- A lexical event delivered by the tokenizer (or a reset operation),
annotated with the tokenizer position readings at delivery time. -/
inductive LEvent where
  | text (data : String) (tp : TokPos)
  | opentagname (name : String) (tp : TokPos)
  | opentagend (tp : TokPos)
  | closetag (name : String) (tp : TokPos)
  | selfclosing (tp : TokPos)
  | attribname (name : String)
  | attribdata (value : String)
  | attribend (quote : AttrQuote) (tp : TokPos)
  | declaration (value : String) (tp : TokPos)
  | procinst (value : String) (tp : TokPos)
  | comment (value : String) (tp : TokPos)
  | cdata (value : String) (tp : TokPos)
  | errorEv (tp : TokPos)
  | eof (tp : TokPos)
  | erbexpr (value : String) (tp : TokPos)
  | erbscript (value : String) (tp : TokPos)
  | doReset
deriving DecidableEq, Repr

/-- Dispatch of one lexical event to the corresponding Parser method. -/
def stepP (cfg : Config) (ev : LEvent) (s : PState) : PState × List PEvent :=
  match ev with
  | .text d tp => ontextP cfg d tp s
  | .opentagname n tp => onopentagnameP cfg n tp s
  | .opentagend tp => onopentagendP cfg tp s
  | .closetag n tp => onclosetagP cfg n tp s
  | .selfclosing tp => onselfclosingtagP cfg tp s
  | .attribname n => (onattribnameP cfg n s, [])
  | .attribdata v => (onattribdataP v s, [])
  | .attribend q tp => onattribendP cfg q tp s
  | .declaration v tp => ondeclarationP cfg v tp s
  | .procinst v tp => onprocessinginstructionP cfg v tp s
  | .comment v tp => oncommentP cfg v tp s
  | .cdata v tp => oncdataP cfg v tp s
  | .errorEv tp => onerrorP cfg tp s
  | .eof tp => onendP cfg tp s
  | .erbexpr v tp => onerbexpressionP cfg v tp s
  | .erbscript v tp => onerbscriptletP cfg v tp s
  | .doReset => resetP cfg s

/-- Run a sequence of lexical events from a state, collecting all emitted
structured events in order. -/
def runP (cfg : Config) (evs : List LEvent) (s : PState) :
    PState × List PEvent :=
  match evs with
  | [] => (s, [])
  | e :: rest =>
      let r1 := stepP cfg e s
      let r2 := runP cfg rest r1.1
      (r2.1, r1.2 ++ r2.2)

/-- An html-mode configuration with every handler callback registered. -/
def cfgHtmlAll : Config :=
  { xmlMode := false, recognizeSelfClosing := false, recognizeCDATA := false,
    lowerCaseTagNames := true, lowerCaseAttributeNames := true,
    hasOnparserinit := true, hasOnreset := true, hasOnend := true,
    hasOnerror := true, hasOnclosetag := true, hasOnopentagname := true,
    hasOnattribute := true, hasOnopentag := true, hasOntext := true,
    hasOncomment := true, hasOncommentend := true, hasOncdatastart := true,
    hasOncdataend := true, hasOnprocessinginstruction := true,
    hasOnerbexpression := true, hasOnerbscriptlet := true }

/-- A fixed tokenizer position reading used by concrete example traces. -/
def tp0 : TokPos := { sectionStart := 0, absoluteIndex := 0 }

/-- The self-closing condition in the words of the specification: xml-mode is
set, or the recognize-self-closing option is set, or the innermost entry of
the foreign-context stack is true.  Stated separately from the source's
condition (which reads an out-of-bounds index as a falsy undefined) so the
two can be proved to coincide. -/
def selfClosingSpecCond (cfg : Config) (s : PState) : Bool :=
  cfg.xmlMode || cfg.recognizeSelfClosing ||
    (match s.foreignContext.head? with
     | some true => true
     | _ => false)

/-- Deliver one attribute to the Parser: an attribute-name event, one
attribute-data chunk, and the attribute-end event. -/
def processOneAttr (cfg : Config) (a : String × String × AttrQuote)
    (tp : TokPos) (s : PState) : PState × List PEvent :=
  onattribendP cfg a.2.2 tp (onattribdataP a.2.1 (onattribnameP cfg a.1 s))

/-- Deliver a list of attributes in order, collecting emitted events. -/
def processAttrs (cfg : Config) (l : List (String × String × AttrQuote))
    (tp : TokPos) (s : PState) : PState × List PEvent :=
  match l with
  | [] => (s, [])
  | a :: rest =>
      let r1 := processOneAttr cfg a tp s
      let r2 := processAttrs cfg rest tp r1.1
      (r2.1, r1.2 ++ r2.2)

/-! ### Basic facts about the position bookkeeping and the stack search -/

@[simp] theorem updatePosition_stack (tp : TokPos) (io : Int) (s : PState) :
    (updatePosition tp io s).stack = s.stack := rfl

@[simp] theorem updatePosition_foreignContext (tp : TokPos) (io : Int)
    (s : PState) : (updatePosition tp io s).foreignContext = s.foreignContext :=
  rfl

@[simp] theorem updatePosition_tagname (tp : TokPos) (io : Int) (s : PState) :
    (updatePosition tp io s).tagname = s.tagname := rfl

@[simp] theorem updatePosition_attribname (tp : TokPos) (io : Int)
    (s : PState) : (updatePosition tp io s).attribname = s.attribname := rfl

@[simp] theorem updatePosition_attribvalue (tp : TokPos) (io : Int)
    (s : PState) : (updatePosition tp io s).attribvalue = s.attribvalue := rfl

@[simp] theorem updatePosition_attribs (tp : TokPos) (io : Int) (s : PState) :
    (updatePosition tp io s).attribs = s.attribs := rfl

@[simp] theorem updatePosition_endIndex (tp : TokPos) (io : Int) (s : PState) :
    (updatePosition tp io s).endIndex = some tp.absoluteIndex := rfl

theorem updatePosition_startIndex_of_some (tp : TokPos) (io : Int)
    (s : PState) (e : Int) (h : s.endIndex = some e) :
    (updatePosition tp io s).startIndex = e + 1 := by
  simp [updatePosition, h]

theorem stackIndexOf_ne_nil {N : String} {l : List String} {i : Nat}
    (h : stackIndexOf N l = some i) : l ≠ [] := by
  intro he
  subst he
  simp [stackIndexOf] at h

theorem stackIndexOf_getElem? {N : String} {l : List String} {i : Nat}
    (h : stackIndexOf N l = some i) : l[i]? = some N := by
  induction l generalizing i with
  | nil => simp [stackIndexOf] at h
  | cons x t ih =>
    by_cases hx : x = N
    · subst hx
      simp [stackIndexOf] at h
      obtain rfl : i = 0 := by omega
      simp
    · simp [stackIndexOf, hx] at h
      obtain ⟨j, hj, rfl⟩ := h
      simpa using ih hj

theorem take_getLast?_of_getElem? {α : Type} {l : List α} {i : Nat} {a : α}
    (h : l[i]? = some a) : (l.take (i + 1)).getLast? = some a := by
  induction l generalizing i with
  | nil => simp at h
  | cons x t ih =>
    cases i with
    | zero =>
      simp at h
      simp [h]
    | succ j =>
      simp at h
      have ht := ih h
      cases htake : t.take (j + 1) with
      | nil =>
        rw [htake] at ht
        simp at ht
      | cons y ys =>
        rw [List.take_succ_cons, htake, List.getLast?_cons_cons]
        rw [htake] at ht
        exact ht

theorem getLast?_map_of_getLast? {α β : Type} (f : α → β) {l : List α}
    {a : α} (h : l.getLast? = some a) : (l.map f).getLast? = some (f a) := by
  induction l with
  | nil => simp at h
  | cons x t ih =>
    cases t with
    | nil =>
      simp at h
      simp [h]
    | cons y ys =>
      rw [List.getLast?_cons_cons] at h
      rw [List.map_cons, List.map_cons, List.getLast?_cons_cons,
        ← List.map_cons]
      exact ih h

/--
C1: when a close-tag lexical event arrives for a non-void (after case
folding) name N that occurs on the non-empty open-element stack, with the
occurrence closest to the top at depth i + 1: if the close-tag callback is
registered the Parser pops exactly i + 1 elements and emits a close event for
each of them in top-to-bottom order, the last one being for N; if the
close-tag callback is not registered, the stack is truncated to its original
length minus (i + 1) and no event is emitted.
-/
theorem C1_closetag_found (cfg : Config) (N : String) (tp : TokPos)
    (s : PState) (i : Nat)
    (hfold : (if cfg.lowerCaseTagNames then strLower N else N) = N)
    (hvoid : isVoidElement cfg N = false)
    (hfound : stackIndexOf N s.stack = some i) :
    (cfg.hasOnclosetag = true →
      (onclosetagP cfg N tp s).1.stack = s.stack.drop (i + 1) ∧
      (onclosetagP cfg N tp s).1.stack.length = s.stack.length - (i + 1) ∧
      (onclosetagP cfg N tp s).2 = (s.stack.take (i + 1)).map PEvent.closetag ∧
      (onclosetagP cfg N tp s).2.getLast? = some (PEvent.closetag N)) ∧
    (cfg.hasOnclosetag = false →
      (onclosetagP cfg N tp s).1.stack = s.stack.drop (i + 1) ∧
      (onclosetagP cfg N tp s).1.stack.length = s.stack.length - (i + 1) ∧
      (onclosetagP cfg N tp s).2 = []) := by
  have hne : s.stack ≠ [] := stackIndexOf_ne_nil hfound
  have hlast : ((s.stack.take (i + 1)).map PEvent.closetag).getLast? =
      some (PEvent.closetag N) :=
    getLast?_map_of_getLast? _
      (take_getLast?_of_getElem? (stackIndexOf_getElem? hfound))
  have hempty : s.stack.isEmpty = false := by
    cases hs : s.stack with
    | nil => exact absurd hs hne
    | cons a t => rfl
  have hlast2 : ((List.map PEvent.closetag s.stack).take (i + 1)).getLast? =
      some (PEvent.closetag N) := by
    rw [← List.map_take]
    exact hlast
  refine ⟨fun hcb => ?_, fun hcb => ?_⟩ <;>
    rw [onclosetagP,
      show 2 * s.stack.length + 4 = 2 * s.stack.length + 3 + 1 from rfl,
      onclosetagF, hfold] <;>
    split <;>
    simp [hempty, hvoid, hfound, hcb, hlast2]

/-- Witness for C1: a concrete close-tag for div at depth 2 of a four-element
stack, with and without the close-tag callback being irrelevant here since
cfgHtmlAll registers it. -/
theorem C1_closetag_found_witness :
    ((if cfgHtmlAll.lowerCaseTagNames then strLower "div" else "div") =
      "div") ∧
    isVoidElement cfgHtmlAll "div" = false ∧
    stackIndexOf "div"
      (PState.stack { initState with stack := ["b", "div", "a"] }) = some 1 ∧
    ((cfgHtmlAll.hasOnclosetag = true →
      (onclosetagP cfgHtmlAll "div" tp0
        { initState with stack := ["b", "div", "a"] }).1.stack =
        (PState.stack { initState with stack := ["b", "div", "a"] }).drop
          (1 + 1) ∧
      (onclosetagP cfgHtmlAll "div" tp0
        { initState with stack := ["b", "div", "a"] }).1.stack.length =
        (PState.stack { initState with stack := ["b", "div", "a"] }).length -
          (1 + 1) ∧
      (onclosetagP cfgHtmlAll "div" tp0
        { initState with stack := ["b", "div", "a"] }).2 =
        ((PState.stack { initState with stack := ["b", "div", "a"] }).take
          (1 + 1)).map PEvent.closetag ∧
      (onclosetagP cfgHtmlAll "div" tp0
        { initState with stack := ["b", "div", "a"] }).2.getLast? =
        some (PEvent.closetag "div")) ∧
    (cfgHtmlAll.hasOnclosetag = false →
      (onclosetagP cfgHtmlAll "div" tp0
        { initState with stack := ["b", "div", "a"] }).1.stack =
        (PState.stack { initState with stack := ["b", "div", "a"] }).drop
          (1 + 1) ∧
      (onclosetagP cfgHtmlAll "div" tp0
        { initState with stack := ["b", "div", "a"] }).1.stack.length =
        (PState.stack { initState with stack := ["b", "div", "a"] }).length -
          (1 + 1) ∧
      (onclosetagP cfgHtmlAll "div" tp0
        { initState with stack := ["b", "div", "a"] }).2 = [])) :=
  ⟨by decide, by decide, by decide,
    C1_closetag_found cfgHtmlAll "div" tp0
      { initState with stack := ["b", "div", "a"] } 1
      (by decide) (by decide) (by decide)⟩

/--
C6 (amended): on end-of-input with a registered close-tag callback the
Parser emits one close event per remaining stack entry, innermost first,
followed by the end event; the stack field itself is left unchanged (the
source loop reads the entries but never pops, so the stack is NOT empty
afterwards, contrary to the claim as written).
-/
theorem C6_onend_emits (cfg : Config) (tp : TokPos) (s : PState)
    (hcb : cfg.hasOnclosetag = true) :
    (onendP cfg tp s).2 =
      s.stack.map PEvent.closetag ++
        (if cfg.hasOnend then [PEvent.endEv] else []) ∧
    (onendP cfg tp s).1 = s := by
  simp [onendP, hcb]

/-- Counterexample to C6 as stated: with the close-tag callback registered
and one element still open, end-of-input emits the close and end events but
the stack still holds that element afterwards, so it was not popped. -/
theorem C6_onend_stack_not_cleared :
    (onendP cfgHtmlAll tp0 { initState with stack := ["div"] }).2 =
      [PEvent.closetag "div", PEvent.endEv] ∧
    (onendP cfgHtmlAll tp0 { initState with stack := ["div"] }).1.stack =
      ["div"] ∧
    (onendP cfgHtmlAll tp0 { initState with stack := ["div"] }).1.stack ≠
      [] := by
  refine ⟨rfl, rfl, by decide⟩

/-- Witness for C6_onend_emits at a concrete one-element stack. -/
theorem C6_onend_emits_witness :
    cfgHtmlAll.hasOnclosetag = true ∧
    ((onendP cfgHtmlAll tp0 { initState with stack := ["li", "ul"] }).2 =
      (PState.stack { initState with stack := ["li", "ul"] }).map
        PEvent.closetag ++
        (if cfgHtmlAll.hasOnend then [PEvent.endEv] else []) ∧
    (onendP cfgHtmlAll tp0 { initState with stack := ["li", "ul"] }).1 =
      { initState with stack := ["li", "ul"] }) :=
  ⟨rfl, C6_onend_emits cfgHtmlAll tp0 { initState with stack := ["li", "ul"] }
    rfl⟩

/--
C7: the claim says reset clears all mutable parse state including the
foreign-context stack, the attribute accumulator (name, value and map) and
the source offsets.  The source method assigns only tagname, attribname,
attribs and stack; evaluating reset on a dirty state shows foreignContext,
attribvalue, startIndex and endIndex surviving, contradicting the claim and
the documented intent of resetting to a blank state.
-/
theorem C7_reset_incomplete :
    (resetP cfgHtmlAll
      { startIndex := 3, endIndex := some 7, tagname := "div",
        attribname := "x", attribvalue := "v", attribs := some [("x", "v")],
        stack := ["div", "svg"], foreignContext := [true] }).1 =
      { startIndex := 3, endIndex := some 7, tagname := "", attribname := "",
        attribvalue := "v", attribs := none, stack := [],
        foreignContext := [true] } ∧
    (resetP cfgHtmlAll
      { startIndex := 3, endIndex := some 7, tagname := "div",
        attribname := "x", attribvalue := "v", attribs := some [("x", "v")],
        stack := ["div", "svg"], foreignContext := [true] }).1.startIndex ≠
      0 := by
  refine ⟨rfl, by decide⟩

/--
C8 (amended): for events that recompute the position cursor, the recorded
end offset equals the tokenizer absolute cursor, EXCEPT text events, where
it is the cursor minus one; whenever a previous event has recorded an end
offset, the new start offset is that end offset plus one.
-/
theorem C8_position_spans (cfg : Config) (dat : String) (tp : TokPos)
    (io : Int) (s : PState) (e : Int) (h : s.endIndex = some e) :
    (updatePosition tp io s).startIndex = e + 1 ∧
    (updatePosition tp io s).endIndex = some tp.absoluteIndex ∧
    (ontextP cfg dat tp s).1.startIndex = e + 1 ∧
    (ontextP cfg dat tp s).1.endIndex = some (tp.absoluteIndex - 1) := by
  refine ⟨updatePosition_startIndex_of_some tp io s e h, rfl, ?_, ?_⟩
  · show (updatePosition tp 1 s).startIndex = e + 1
    exact updatePosition_startIndex_of_some tp 1 s e h
  · rfl

/-- Counterexample to C8 as stated: a text event at tokenizer cursor 5
records end offset 4, not the cursor value. -/
theorem C8_text_end_off_by_one :
    (ontextP cfgHtmlAll "a" (TokPos.mk 3 5)
      { initState with endIndex := some 2 }).1.endIndex = some 4 ∧
    (ontextP cfgHtmlAll "a" (TokPos.mk 3 5)
      { initState with endIndex := some 2 }).1.endIndex ≠
      some (TokPos.mk 3 5).absoluteIndex := by
  refine ⟨rfl, by decide⟩

/-- Witness for C8_position_spans at a concrete state and cursor. -/
theorem C8_position_spans_witness :
    (PState.endIndex { initState with endIndex := some 2 } = some 2) ∧
    ((updatePosition (TokPos.mk 3 5) 1
        { initState with endIndex := some 2 }).startIndex = 2 + 1 ∧
    (updatePosition (TokPos.mk 3 5) 1
        { initState with endIndex := some 2 }).endIndex =
      some (TokPos.mk 3 5).absoluteIndex ∧
    (ontextP cfgHtmlAll "a" (TokPos.mk 3 5)
        { initState with endIndex := some 2 }).1.startIndex = 2 + 1 ∧
    (ontextP cfgHtmlAll "a" (TokPos.mk 3 5)
        { initState with endIndex := some 2 }).1.endIndex =
      some ((TokPos.mk 3 5).absoluteIndex - 1)) :=
  ⟨rfl, C8_position_spans cfgHtmlAll "a" (TokPos.mk 3 5) 1
    { initState with endIndex := some 2 } 2 rfl⟩

/--
C10: every attribute-end event invokes the onattribute callback (when
registered) with the accumulated name, value and quote kind, including for
a later occurrence of a duplicate attribute name; in the duplicate case the
attribs mapping is left unchanged even though the event is still reported.
-/
theorem C10_attribend_reports (cfg : Config) (q : AttrQuote) (tp : TokPos)
    (s : PState) (hcb : cfg.hasOnattribute = true) :
    (onattribendP cfg q tp s).2 =
      [PEvent.attribute s.attribname s.attribvalue q] ∧
    (∀ ab, s.attribs = some ab → (alookup s.attribname ab).isSome →
      (onattribendP cfg q tp s).1.attribs = some ab) := by
  constructor
  · simp [onattribendP, hcb]
  · intro ab hab hdup
    obtain ⟨v, hv⟩ := Option.isSome_iff_exists.mp hdup
    simp [onattribendP, hab, hv]

/-- Witness for C10: a duplicate attribute x is reported via the attribute
event while the mapping keeps the first value. -/
theorem C10_attribend_reports_witness :
    cfgHtmlAll.hasOnattribute = true ∧
    (onattribendP cfgHtmlAll AttrQuote.double tp0
      { initState with
        attribname := "x", attribvalue := "2",
        attribs := some [("x", "1")] }).2 =
      [PEvent.attribute "x" "2" AttrQuote.double] ∧
    (onattribendP cfgHtmlAll AttrQuote.double tp0
      { initState with
        attribname := "x", attribvalue := "2",
        attribs := some [("x", "1")] }).1.attribs = some [("x", "1")] :=
  ⟨rfl,
    (C10_attribend_reports cfgHtmlAll AttrQuote.double tp0
      { initState with
        attribname := "x", attribvalue := "2",
        attribs := some [("x", "1")] } rfl).1,
    (C10_attribend_reports cfgHtmlAll AttrQuote.double tp0
      { initState with
        attribname := "x", attribvalue := "2",
        attribs := some [("x", "1")] } rfl).2 [("x", "1")] rfl (by decide)⟩

/-! ### The auto-close loop -/

theorem onclosetagF_top (fuel : Nat) (cfg : Config) (el : String)
    (tp : TokPos) (s : PState) (rest : List String)
    (hs : s.stack = el :: rest)
    (hfold : (if cfg.lowerCaseTagNames then strLower el else el) = el)
    (hvoid : isVoidElement cfg el = false) :
    (onclosetagF (fuel + 1) cfg el tp s).1.stack = rest ∧
    (onclosetagF (fuel + 1) cfg el tp s).1.tagname = s.tagname ∧
    (onclosetagF (fuel + 1) cfg el tp s).1.attribname = s.attribname ∧
    (onclosetagF (fuel + 1) cfg el tp s).1.attribvalue = s.attribvalue ∧
    (onclosetagF (fuel + 1) cfg el tp s).1.attribs = s.attribs ∧
    (onclosetagF (fuel + 1) cfg el tp s).2 =
      (if cfg.hasOnclosetag then [PEvent.closetag el] else []) := by
  have hidx : stackIndexOf el s.stack = some 0 := by
    rw [hs]
    simp [stackIndexOf]
  rw [onclosetagF, hfold]
  cases hcb : cfg.hasOnclosetag <;> split <;>
    simp [hs, hidx, hvoid, hcb, stackIndexOf]

theorem autoCloseF_spec (cfg : Config) (closeSet : List String)
    (tp : TokPos) :
    ∀ (stk : List String) (fuel : Nat) (s : PState),
      s.stack = stk →
      cfg.xmlMode = false →
      (∀ x ∈ stk, voidElements.contains x = false) →
      (∀ x ∈ stk, (if cfg.lowerCaseTagNames then strLower x else x) = x) →
      2 * stk.length + 1 ≤ fuel →
      (autoCloseF fuel cfg closeSet tp s).1.stack =
        stk.dropWhile closeSet.contains ∧
      (autoCloseF fuel cfg closeSet tp s).1.tagname = s.tagname ∧
      (autoCloseF fuel cfg closeSet tp s).1.attribname = s.attribname ∧
      (autoCloseF fuel cfg closeSet tp s).1.attribvalue = s.attribvalue ∧
      (autoCloseF fuel cfg closeSet tp s).1.attribs = s.attribs ∧
      (autoCloseF fuel cfg closeSet tp s).2 =
        (if cfg.hasOnclosetag then
          (stk.takeWhile closeSet.contains).map PEvent.closetag
        else []) := by
  intro stk
  induction stk with
  | nil =>
    intro fuel s hs hxml hv hf hfuel
    obtain ⟨f, rfl⟩ : ∃ f, fuel = f + 1 := ⟨fuel - 1, by omega⟩
    rw [autoCloseF, hs]
    simp [hs]
  | cons el rest ih =>
    intro fuel s hs hxml hv hf hfuel
    obtain ⟨f, rfl⟩ : ∃ f, fuel = f + 1 := ⟨fuel - 1, by omega⟩
    have hflen : 2 * rest.length + 2 ≤ f := by
      simp [List.length_cons] at hfuel
      omega
    rw [autoCloseF, hs]
    by_cases hcase : closeSet.contains el = true
    · obtain ⟨f2, rfl⟩ : ∃ f2, f = f2 + 1 := ⟨f - 1, by omega⟩
      have hvoidel : isVoidElement cfg el = false := by
        have hvel := hv el (by simp)
        simp only [isVoidElement, hxml, Bool.not_false, Bool.true_and]
        exact hvel
      have htop := onclosetagF_top f2 cfg el tp s rest hs
        (hf el (by simp)) hvoidel
      have hrec := ih (f2 + 1) (onclosetagF (f2 + 1) cfg el tp s).1
        htop.1 hxml
        (fun x hx => hv x (by simp [hx]))
        (fun x hx => hf x (by simp [hx]))
        (by omega)
      simp only [hcase, if_true]
      refine ⟨?_, ?_, ?_, ?_, ?_, ?_⟩
      · rw [hrec.1, List.dropWhile_cons, hcase]
        simp
      · rw [hrec.2.1, htop.2.1]
      · rw [hrec.2.2.1, htop.2.2.1]
      · rw [hrec.2.2.2.1, htop.2.2.2.1]
      · rw [hrec.2.2.2.2.1, htop.2.2.2.2.1]
      · rw [hrec.2.2.2.2.2, htop.2.2.2.2.2,
          List.takeWhile_cons, hcase]
        cases hcb : cfg.hasOnclosetag <;> simp
    · have hcase2 : closeSet.contains el = false := by
        cases h2 : closeSet.contains el
        · rfl
        · exact absurd h2 hcase
      simp only [hcase2, if_false]
      rw [List.dropWhile_cons, List.takeWhile_cons, hcase2]
      simp [hs]

/--
C2: for an open-tag-name event with (folded) name N outside xml-mode where
N has an auto-close set, the Parser first pops every consecutive
top-of-stack element belonging to the set, emitting a synthetic close event
for each (the close-tag callback being registered), and only then pushes N
(unless N is void); and on the document ul li a li b /ul the close of the
first li is emitted before the second li opens, and the close of the second
li before the close of ul.
-/
theorem C2_autoclose (cfg : Config) (N : String) (tp : TokPos) (s : PState)
    (closeSet : List String)
    (hxml : cfg.xmlMode = false)
    (hfold : (if cfg.lowerCaseTagNames then strLower N else N) = N)
    (hset : openImpliesClose N = some closeSet)
    (hcb : cfg.hasOnclosetag = true)
    (hstackv : ∀ x ∈ s.stack, voidElements.contains x = false)
    (hstackf : ∀ x ∈ s.stack,
      (if cfg.lowerCaseTagNames then strLower x else x) = x) :
    ((onopentagnameP cfg N tp s).2 =
      (s.stack.takeWhile closeSet.contains).map PEvent.closetag ++
        (if cfg.hasOnopentagname then [PEvent.opentagname N] else []) ∧
    (onopentagnameP cfg N tp s).1.stack =
      (if isVoidElement cfg N then s.stack.dropWhile closeSet.contains
       else N :: s.stack.dropWhile closeSet.contains)) ∧
    (runP cfgHtmlAll
      [LEvent.opentagname "ul" tp0, LEvent.opentagend tp0,
       LEvent.opentagname "li" tp0, LEvent.opentagend tp0,
       LEvent.text "a" tp0, LEvent.opentagname "li" tp0,
       LEvent.opentagend tp0, LEvent.text "b" tp0,
       LEvent.closetag "ul" tp0] initState).2 =
      [PEvent.opentagname "ul", PEvent.opentag "ul" [],
       PEvent.opentagname "li", PEvent.opentag "li" [], PEvent.text "a",
       PEvent.closetag "li", PEvent.opentagname "li",
       PEvent.opentag "li" [], PEvent.text "b", PEvent.closetag "li",
       PEvent.closetag "ul"] := by
  constructor
  · have hauto := autoCloseF_spec cfg closeSet tp s.stack
      (2 * s.stack.length + 3) { s with tagname := N } rfl hxml
      hstackv hstackf (by omega)
    rw [onopentagnameP,
      show 2 * s.stack.length + 4 = 2 * s.stack.length + 3 + 1 from rfl,
      onopentagnameF, hfold]
    rw [hxml]
    simp only [Bool.not_false, if_true, hset]
    constructor
    · simp [hauto.2.2.2.2.2, hcb]
    · cases hvd : isVoidElement cfg N <;>
        split_ifs <;>
        first
          | contradiction
          | simp [hvd, hauto.1]
  · decide

/-- Witness for C2: opening a second li while the stack holds li inside an
svg subtree (a foreign-context name deeper on the stack), which the theorem
covers. -/
theorem C2_autoclose_witness :
    (cfgHtmlAll.xmlMode = false ∧
      openImpliesClose "li" = some ["li"] ∧
      cfgHtmlAll.hasOnclosetag = true) ∧
    (((onopentagnameP cfgHtmlAll "li" tp0
        { initState with stack := ["li", "svg"] }).2 =
      ((PState.stack { initState with stack := ["li", "svg"] }).takeWhile
        (List.contains ["li"])).map PEvent.closetag ++
        (if cfgHtmlAll.hasOnopentagname then [PEvent.opentagname "li"]
         else []) ∧
    (onopentagnameP cfgHtmlAll "li" tp0
        { initState with stack := ["li", "svg"] }).1.stack =
      (if isVoidElement cfgHtmlAll "li" then
        (PState.stack { initState with stack := ["li", "svg"] }).dropWhile
          (List.contains ["li"])
       else "li" :: (PState.stack
          { initState with stack := ["li", "svg"] }).dropWhile
          (List.contains ["li"]))) ∧
    (runP cfgHtmlAll
      [LEvent.opentagname "ul" tp0, LEvent.opentagend tp0,
       LEvent.opentagname "li" tp0, LEvent.opentagend tp0,
       LEvent.text "a" tp0, LEvent.opentagname "li" tp0,
       LEvent.opentagend tp0, LEvent.text "b" tp0,
       LEvent.closetag "ul" tp0] initState).2 =
      [PEvent.opentagname "ul", PEvent.opentag "ul" [],
       PEvent.opentagname "li", PEvent.opentag "li" [], PEvent.text "a",
       PEvent.closetag "li", PEvent.opentagname "li",
       PEvent.opentag "li" [], PEvent.text "b", PEvent.closetag "li",
       PEvent.closetag "ul"]) :=
  ⟨⟨rfl, rfl, rfl⟩,
    C2_autoclose cfgHtmlAll "li" tp0
      { initState with stack := ["li", "svg"] }
      ["li"] rfl (by decide) rfl rfl (by decide) (by decide)⟩

/-! ### The void-element stack invariant -/

theorem onopentagendP_stack (cfg : Config) (tp : TokPos) (s : PState) :
    (onopentagendP cfg tp s).1.stack = s.stack := by
  rcases h : s.attribs with _ | ab <;> simp [onopentagendP, h]

theorem closeCurrentTagP_stack_mem (cfg : Config) (tp : TokPos) (s : PState) :
    ∀ x ∈ (closeCurrentTagP cfg tp s).1.stack, x ∈ s.stack := by
  intro x hx
  unfold closeCurrentTagP at hx
  split at hx
  · simp only [onopentagendP_stack] at hx
    exact List.mem_of_mem_tail hx
  · rw [onopentagendP_stack] at hx
    exact hx

theorem stack_mem_pres (fuel : Nat) :
    (∀ (cfg : Config) (name : String) (tp : TokPos) (s : PState),
      cfg.xmlMode = false →
      ∀ x ∈ (onclosetagF fuel cfg name tp s).1.stack,
        x ∈ s.stack ∨ voidElements.contains x = false) ∧
    (∀ (cfg : Config) (name : String) (tp : TokPos) (s : PState),
      cfg.xmlMode = false →
      ∀ x ∈ (onopentagnameF fuel cfg name tp s).1.stack,
        x ∈ s.stack ∨ voidElements.contains x = false) ∧
    (∀ (cfg : Config) (closeSet : List String) (tp : TokPos) (s : PState),
      cfg.xmlMode = false →
      ∀ x ∈ (autoCloseF fuel cfg closeSet tp s).1.stack,
        x ∈ s.stack ∨ voidElements.contains x = false) := by
  induction fuel with
  | zero =>
    refine ⟨?_, ?_, ?_⟩
    · intro cfg name tp s hxml x hx
      rw [onclosetagF] at hx
      exact Or.inl hx
    · intro cfg name tp s hxml x hx
      rw [onopentagnameF] at hx
      exact Or.inl hx
    · intro cfg closeSet tp s hxml x hx
      rw [autoCloseF] at hx
      exact Or.inl hx
  | succ f ih =>
    obtain ⟨ihc, iho, iha⟩ := ih
    refine ⟨?_, ?_, ?_⟩
    · intro cfg name tp s hxml x hx
      rw [onclosetagF] at hx
      simp only [apply_ite Prod.fst, apply_ite PState.stack, ite_self] at hx
      repeat' split at hx
      all_goals
        first
          | exact Or.inl hx
          | exact Or.inl (List.drop_subset _ _ hx)
          | (rcases iho cfg _ tp _ hxml x
                (closeCurrentTagP_stack_mem _ _ _ x hx) with h | h
             · exact Or.inl h
             · exact Or.inr h)
    · intro cfg name tp s hxml x hx
      rw [onopentagnameF] at hx
      simp only [hxml, apply_ite Prod.fst, apply_ite PState.stack, ite_self,
        Bool.not_false, if_true] at hx
      generalize hn2 : (if cfg.lowerCaseTagNames = true then strLower name
        else name) = n2 at hx
      split at hx
      · rename_i hguard
        rcases List.mem_cons.mp hx with rfl | h
        · right
          simp only [Bool.not_eq_true'] at hguard
          simpa [isVoidElement, hxml] using hguard
        · split at h
          · rcases iha cfg _ tp _ hxml x h with h2 | h2
            · exact Or.inl h2
            · exact Or.inr h2
          · exact Or.inl h
      · split at hx
        · rcases iha cfg _ tp _ hxml x hx with h2 | h2
          · exact Or.inl h2
          · exact Or.inr h2
        · exact Or.inl hx
    · intro cfg closeSet tp s hxml x hx
      rw [autoCloseF] at hx
      split at hx
      · exact Or.inl hx
      · split at hx
        · rcases iha cfg closeSet tp _ hxml x hx with h | h
          · rcases ihc cfg _ tp _ hxml x h with h2 | h2
            · exact Or.inl h2
            · exact Or.inr h2
          · exact Or.inr h
        · exact Or.inl hx

theorem onattribendP_stack (cfg : Config) (q : AttrQuote) (tp : TokPos)
    (s : PState) : (onattribendP cfg q tp s).1.stack = s.stack := by
  rcases h : s.attribs with _ | ab <;> simp [onattribendP, h] <;> split <;> rfl

theorem oncdataP_stack (cfg : Config) (v : String) (tp : TokPos)
    (s : PState) : (oncdataP cfg v tp s).1.stack = s.stack := by
  unfold oncdataP oncommentP
  split <;> rfl

theorem stepP_stack_mem (cfg : Config) (ev : LEvent) (s : PState)
    (hxml : cfg.xmlMode = false) :
    ∀ x ∈ (stepP cfg ev s).1.stack,
      x ∈ s.stack ∨ voidElements.contains x = false := by
  intro x hx
  cases ev <;> simp only [stepP] at hx
  case text d tp => exact Or.inl hx
  case opentagname n tp =>
    rw [onopentagnameP] at hx
    exact (stack_mem_pres _).2.1 cfg n tp s hxml x hx
  case opentagend tp =>
    rw [onopentagendP_stack] at hx
    exact Or.inl hx
  case closetag n tp =>
    rw [onclosetagP] at hx
    exact (stack_mem_pres _).1 cfg n tp s hxml x hx
  case selfclosing tp =>
    unfold onselfclosingtagP at hx
    split at hx
    · exact Or.inl (closeCurrentTagP_stack_mem _ _ _ x hx)
    · rw [onopentagendP_stack] at hx
      exact Or.inl hx
  case attribname n => exact Or.inl hx
  case attribdata v => exact Or.inl hx
  case attribend q tp =>
    rw [onattribendP_stack] at hx
    exact Or.inl hx
  case declaration v tp => exact Or.inl hx
  case procinst v tp => exact Or.inl hx
  case comment v tp => exact Or.inl hx
  case cdata v tp =>
    rw [oncdataP_stack] at hx
    exact Or.inl hx
  case errorEv tp => exact Or.inl hx
  case eof tp => exact Or.inl hx
  case erbexpr v tp => exact Or.inl hx
  case erbscript v tp => exact Or.inl hx
  case doReset => simp [resetP] at hx

theorem runP_stack_mem (cfg : Config) (hxml : cfg.xmlMode = false) :
    ∀ (evs : List LEvent) (s : PState),
      (∀ x ∈ s.stack, voidElements.contains x = false) →
      ∀ x ∈ (runP cfg evs s).1.stack, voidElements.contains x = false := by
  intro evs
  induction evs with
  | nil =>
    intro s hs x hx
    rw [runP] at hx
    exact hs x hx
  | cons e rest ih =>
    intro s hs x hx
    rw [runP] at hx
    exact ih (stepP cfg e s).1
      (fun y hy => (stepP_stack_mem cfg e s hxml y hy).elim
        (fun hm => hs y hm) (fun h => h)) x hx

/--
C3: in non-xml mode, every Parser state reachable from the initial state by
any sequence of lexical events (and resets) has an open-element stack free of
void element names; and an open-tag-end event for a void current tag with a
registered close-tag callback emits exactly one synthetic close event for it,
immediately after the open-tag event when one is emitted, while the stack is
untouched.
-/
theorem C3_void_invariant (cfg : Config) (hxml : cfg.xmlMode = false) :
    (∀ evs : List LEvent, ∀ x ∈ (runP cfg evs initState).1.stack,
      voidElements.contains x = false) ∧
    (∀ (tp : TokPos) (s : PState),
      isVoidElement cfg s.tagname = true → cfg.hasOnclosetag = true →
      (onopentagendP cfg tp s).2 =
        (match s.attribs with
         | some ab =>
            if cfg.hasOnopentag then [PEvent.opentag s.tagname ab] else []
         | none => []) ++ [PEvent.closetag s.tagname] ∧
      (onopentagendP cfg tp s).1.stack = s.stack) := by
  constructor
  · intro evs x hx
    refine runP_stack_mem cfg hxml evs initState ?_ x hx
    intro y hy
    simp [initState] at hy
  · intro tp s hv hcb
    rcases h : s.attribs with _ | ab <;> simp [onopentagendP, h, hv, hcb]

/-- Witness for C3: parsing br in html mode leaves the stack empty of void
names, and a void open-tag-end on a state with tagname br emits the open
event followed by exactly one synthetic close. -/
theorem C3_void_invariant_witness :
    cfgHtmlAll.xmlMode = false ∧
    (∀ x ∈ (runP cfgHtmlAll [LEvent.opentagname "br" tp0,
        LEvent.opentagend tp0, LEvent.opentagname "div" tp0,
        LEvent.opentagend tp0] initState).1.stack,
      voidElements.contains x = false) ∧
    (isVoidElement cfgHtmlAll
      (PState.tagname { initState with
        tagname := "br", attribs := some [] }) = true ∧
    (onopentagendP cfgHtmlAll tp0
      { initState with
        tagname := "br", attribs := some [] }).2 =
      [PEvent.opentag "br" [], PEvent.closetag "br"] ∧
    (onopentagendP cfgHtmlAll tp0
      { initState with
        tagname := "br", attribs := some [] }).1.stack =
      PState.stack { initState with tagname := "br", attribs := some [] }) := by
  refine ⟨rfl, (C3_void_invariant cfgHtmlAll rfl).1 _, by decide,
    ?_, ((C3_void_invariant cfgHtmlAll rfl).2 tp0
      { initState with
        tagname := "br", attribs := some [] }
      (by decide) rfl).2⟩
  exact ((C3_void_invariant cfgHtmlAll rfl).2 tp0
    { initState with tagname := "br", attribs := some [] }
    (by decide) rfl).1

theorem selfClosingSpecCond_eq (cfg : Config) (s : PState) :
    selfClosingSpecCond cfg s =
      (cfg.xmlMode || cfg.recognizeSelfClosing ||
        s.foreignContext.head?.getD false) := by
  unfold selfClosingSpecCond
  cases hh : s.foreignContext.head? with
  | none => rfl
  | some b => cases b <;> rfl

/--
C4: a self-closing-tag event takes the open-then-immediately-close path
exactly when xml-mode is set, or recognize-self-closing is set, or the
innermost foreign-context entry is true; otherwise it is processed as an
ordinary open-tag-end.  On the document svg path/ /svg with the default
html configuration, path is closed immediately (before the svg close) even
though recognize-self-closing and xml-mode are off.
-/
theorem C4_selfclosing (cfg : Config) (tp : TokPos) (s : PState) :
    (selfClosingSpecCond cfg s = true →
      onselfclosingtagP cfg tp s = closeCurrentTagP cfg tp s) ∧
    (selfClosingSpecCond cfg s = false →
      onselfclosingtagP cfg tp s = onopentagendP cfg tp s) ∧
    (runP cfgHtmlAll
      [LEvent.opentagname "svg" tp0, LEvent.opentagend tp0,
       LEvent.opentagname "path" tp0, LEvent.selfclosing tp0,
       LEvent.closetag "svg" tp0] initState).2 =
      [PEvent.opentagname "svg", PEvent.opentag "svg" [],
       PEvent.opentagname "path", PEvent.opentag "path" [],
       PEvent.closetag "path", PEvent.closetag "svg"] := by
  refine ⟨?_, ?_, by decide⟩
  · intro h
    rw [selfClosingSpecCond_eq] at h
    unfold onselfclosingtagP
    rw [if_pos h]
  · intro h
    rw [selfClosingSpecCond_eq] at h
    unfold onselfclosingtagP
    rw [if_neg]
    simp [h]

/-- Witness for C4: inside an svg subtree (innermost foreign entry true) the
self-closing path is taken; with the empty foreign stack and default options
it is not. -/
theorem C4_selfclosing_witness :
    (selfClosingSpecCond cfgHtmlAll
      { initState with
        tagname := "path", stack := ["path", "svg"],
        foreignContext := [true] } = true ∧
    onselfclosingtagP cfgHtmlAll tp0
      { initState with
        tagname := "path", stack := ["path", "svg"],
        foreignContext := [true] } =
      closeCurrentTagP cfgHtmlAll tp0
        { initState with
          tagname := "path", stack := ["path", "svg"],
          foreignContext := [true] }) ∧
    (selfClosingSpecCond cfgHtmlAll initState = false ∧
    onselfclosingtagP cfgHtmlAll tp0 initState =
      onopentagendP cfgHtmlAll tp0 initState) :=
  ⟨⟨by decide,
    (C4_selfclosing cfgHtmlAll tp0
      { initState with
        tagname := "path", stack := ["path", "svg"],
        foreignContext := [true] }).1 (by decide)⟩,
   ⟨by decide,
    (C4_selfclosing cfgHtmlAll tp0 initState).2.1 (by decide)⟩⟩


theorem autoCloseF_stop (fuel : Nat) (cfg : Config) (closeSet : List String)
    (tp : TokPos) (s : PState)
    (h : ∀ el rest, s.stack = el :: rest → closeSet.contains el = false)
    (hf : 1 ≤ fuel) :
    autoCloseF fuel cfg closeSet tp s = (s, []) := by
  obtain ⟨f, rfl⟩ : ∃ f, fuel = f + 1 := ⟨fuel - 1, by omega⟩
  rw [autoCloseF]
  cases hs : s.stack with
  | nil => rfl
  | cons el rest =>
    dsimp only
    rw [h el rest hs]
    simp

theorem onopentagnameF_p (fuel : Nat) (cfg : Config) (tp : TokPos)
    (s : PState) (hxml : cfg.xmlMode = false)
    (hhead : s.stack.head? ≠ some "p") (hf : 2 ≤ fuel) :
    onopentagnameF fuel cfg "p" tp s =
      ({ s with
          tagname := "p", stack := "p" :: s.stack,
          attribs := if cfg.hasOnopentag then some [] else s.attribs },
       if cfg.hasOnopentagname then [PEvent.opentagname "p"] else []) := by
  obtain ⟨f, rfl⟩ : ∃ f, fuel = f + 1 := ⟨fuel - 1, by omega⟩
  have hfold : (if cfg.lowerCaseTagNames = true then strLower "p" else "p") =
      "p" := by
    cases cfg.lowerCaseTagNames <;> rfl
  have hstop : autoCloseF f cfg pTag tp { s with tagname := "p" } =
      ({ s with tagname := "p" }, []) := by
    refine autoCloseF_stop f cfg pTag tp _ ?_ (by omega)
    intro el rest hs
    have : s.stack.head? = some el := by
      rw [show ({ s with tagname := "p" } : PState).stack = s.stack from rfl]
        at hs
      rw [hs]
      rfl
    have hne : el ≠ "p" := fun he => hhead (by rw [this, he])
    simp [pTag, hne]
  rw [onopentagnameF, hfold, hxml]
  simp only [Bool.not_false, if_true,
    show openImpliesClose "p" = some pTag from rfl, hstop,
    show isVoidElement cfg "p" = false from by
      simp [isVoidElement, hxml, voidElements],
    show foreignContextElements.contains "p" = false from rfl,
    show htmlIntegrationElements.contains "p" = false from rfl]
  cases hop : cfg.hasOnopentag <;> cases hon : cfg.hasOnopentagname <;> simp

theorem onopentagnameF_br (fuel : Nat) (cfg : Config) (tp : TokPos)
    (s : PState) (hxml : cfg.xmlMode = false) (hf : 2 ≤ fuel) :
    onopentagnameF fuel cfg "br" tp s =
      ({ s with
          tagname := "br",
          attribs := if cfg.hasOnopentag then some [] else s.attribs },
       if cfg.hasOnopentagname then [PEvent.opentagname "br"] else []) := by
  obtain ⟨f, rfl⟩ : ∃ f, fuel = f + 1 := ⟨fuel - 1, by omega⟩
  have hfold : (if cfg.lowerCaseTagNames = true then strLower "br" else "br")
      = "br" := by
    cases cfg.lowerCaseTagNames <;> rfl
  rw [onopentagnameF, hfold, hxml]
  simp only [Bool.not_false, if_true,
    show openImpliesClose "br" = none from rfl,
    show isVoidElement cfg "br" = true from by
      simp [isVoidElement, hxml, voidElements]]
  cases hop : cfg.hasOnopentag <;> cases hon : cfg.hasOnopentagname <;> simp

theorem isEmpty_eq_false_of_ne {l : List String} (h : l ≠ []) :
    l.isEmpty = false := by
  cases hl : l with
  | nil => exact absurd hl h
  | cons a t => rfl

/--
C5: in non-xml mode, a stray close-tag is recovered without any error event:
a close-p with a non-empty stack not containing p, a close-p with an empty
stack, and a close-br whose name is not on top of the stack each synthesize
an open event for the name immediately followed by its close event, leaving
the stack as it was (callbacks for open-tag-name, open-tag and close-tag
being registered).
-/
theorem C5_stray_close_recovery (cfg : Config) (tp : TokPos) (s : PState)
    (hxml : cfg.xmlMode = false)
    (hcb : cfg.hasOnclosetag = true)
    (hot : cfg.hasOnopentag = true)
    (hotn : cfg.hasOnopentagname = true) :
    (s.stack ≠ [] → stackIndexOf "p" s.stack = none →
      (onclosetagP cfg "p" tp s).2 =
        [PEvent.opentagname "p", PEvent.opentag "p" [],
          PEvent.closetag "p"] ∧
      (onclosetagP cfg "p" tp s).1.stack = s.stack ∧
      PEvent.errorEv ∉ (onclosetagP cfg "p" tp s).2) ∧
    (s.stack = [] →
      (onclosetagP cfg "p" tp s).2 =
        [PEvent.opentagname "p", PEvent.opentag "p" [],
          PEvent.closetag "p"] ∧
      (onclosetagP cfg "p" tp s).1.stack = s.stack ∧
      PEvent.errorEv ∉ (onclosetagP cfg "p" tp s).2) ∧
    (s.stack.head? ≠ some "br" →
      (onclosetagP cfg "br" tp s).2 =
        [PEvent.opentagname "br", PEvent.opentag "br" [],
          PEvent.closetag "br"] ∧
      (onclosetagP cfg "br" tp s).1.stack = s.stack ∧
      PEvent.errorEv ∉ (onclosetagP cfg "br" tp s).2) := by
  have hfoldp : (if cfg.lowerCaseTagNames = true then strLower "p" else "p")
      = "p" := by
    cases cfg.lowerCaseTagNames <;> rfl
  have hfoldbr : (if cfg.lowerCaseTagNames = true then strLower "br" else "br")
      = "br" := by
    cases cfg.lowerCaseTagNames <;> rfl
  have hvdp : isVoidElement cfg "p" = false := by
    simp [isVoidElement, hxml, voidElements]
  have hvdbr : isVoidElement cfg "br" = true := by
    simp [isVoidElement, hxml, voidElements]
  refine ⟨?_, ?_, ?_⟩
  · intro hne hnf
    have hhead : s.stack.head? ≠ some "p" := by
      intro hh
      cases hs : s.stack with
      | nil => rw [hs] at hh; simp at hh
      | cons a t =>
        rw [hs] at hh
        simp at hh
        rw [hs] at hnf
        simp [stackIndexOf, hh] at hnf
    rw [onclosetagP,
      show 2 * s.stack.length + 4 = 2 * s.stack.length + 3 + 1 from rfl,
      onclosetagF, hfoldp, hxml]
    rw [if_neg (show ¬((foreignContextElements.contains "p" ||
      htmlIntegrationElements.contains "p") = true) from by decide)]
    rw [if_pos (show (!(updatePosition tp 1 s).stack.isEmpty &&
        !isVoidElement cfg "p") = true from by
      rw [show (updatePosition tp 1 s).stack = s.stack from rfl,
        isEmpty_eq_false_of_ne hne, hvdp]
      rfl)]
    rw [show stackIndexOf "p" (updatePosition tp 1 s).stack =
      (none : Option Nat) from hnf]
    rw [onopentagnameF_p (2 * s.stack.length + 3) cfg tp
      (updatePosition tp 1 s) hxml hhead (by omega)]
    simp [closeCurrentTagP, onopentagendP, hcb, hot, hotn, hvdp]
  · intro hse
    rw [onclosetagP,
      show 2 * s.stack.length + 4 = 2 * s.stack.length + 3 + 1 from rfl,
      onclosetagF, hfoldp, hxml]
    rw [if_neg (show ¬((foreignContextElements.contains "p" ||
      htmlIntegrationElements.contains "p") = true) from by decide)]
    rw [if_neg (show ¬((!(updatePosition tp 1 s).stack.isEmpty &&
        !isVoidElement cfg "p") = true) from by
      rw [show (updatePosition tp 1 s).stack = s.stack from rfl, hse]
      simp)]
    rw [if_pos (show (!false && (decide ("p" = "br") || decide ("p" = "p")))
      = true from by decide)]
    rw [onopentagnameF_p (2 * s.stack.length + 3) cfg tp
      (updatePosition tp 1 s) hxml
      (by
        rw [show (updatePosition tp 1 s).stack = s.stack from rfl, hse]
        simp) (by omega)]
    simp [closeCurrentTagP, onopentagendP, hcb, hot, hotn, hvdp, hse]
  · intro hhead
    rw [onclosetagP,
      show 2 * s.stack.length + 4 = 2 * s.stack.length + 3 + 1 from rfl,
      onclosetagF, hfoldbr, hxml]
    rw [if_neg (show ¬((foreignContextElements.contains "br" ||
      htmlIntegrationElements.contains "br") = true) from by decide)]
    rw [if_neg (show ¬((!(updatePosition tp 1 s).stack.isEmpty &&
        !isVoidElement cfg "br") = true) from by
      rw [hvdbr]
      simp)]
    rw [if_pos (show (!false && (decide ("br" = "br") || decide ("br" = "p")))
      = true from by decide)]
    rw [onopentagnameF_br (2 * s.stack.length + 3) cfg tp
      (updatePosition tp 1 s) hxml (by omega)]
    simp [closeCurrentTagP, onopentagendP, hcb, hot, hotn, hvdbr, hhead]

@[simp] theorem onattribnameP_attribs (cfg : Config) (n : String)
    (s : PState) : (onattribnameP cfg n s).attribs = s.attribs := rfl

@[simp] theorem onattribdataP_attribs (v : String) (s : PState) :
    (onattribdataP v s).attribs = s.attribs := rfl

theorem alookup_append (k : String) (l1 l2 : List (String × String)) :
    alookup k (l1 ++ l2) = (alookup k l1).orElse (fun _ => alookup k l2) := by
  induction l1 with
  | nil => simp [alookup, Option.orElse]
  | cons p rest ih =>
    by_cases hp : p.1 = k
    · simp [alookup, hp, Option.orElse]
    · simp [alookup, hp, Option.orElse, ih]

theorem alookup_eq_none_iff (k : String) (l : List (String × String)) :
    alookup k l = none ↔ k ∉ l.map Prod.fst := by
  induction l with
  | nil => simp [alookup]
  | cons p rest ih =>
    by_cases hp : p.1 = k
    · simp [alookup, hp]
    · simp [alookup, hp, ih]
      intro h
      exact fun he => hp he.symm

theorem processAttrs_attribs (cfg : Config) (tp : TokPos) :
    ∀ (l : List (String × String × AttrQuote))
      (ab : List (String × String)) (s : PState),
      s.attribs = some ab → s.attribvalue = "" →
      ∃ m, (processAttrs cfg l tp s).1.attribs = some m ∧
        (∀ k, alookup k m = (alookup k ab).orElse (fun _ =>
          alookup k (l.map fun a =>
            (if cfg.lowerCaseAttributeNames then strLower a.1 else a.1,
             a.2.1)))) ∧
        ((ab.map Prod.fst).Nodup → (m.map Prod.fst).Nodup) := by
  intro l
  induction l with
  | nil =>
    intro ab s hab hval
    refine ⟨ab, ?_, ?_, fun h => h⟩
    · rw [processAttrs]
      exact hab
    · intro k
      cases h : alookup k ab <;> simp [alookup, Option.orElse, h]
  | cons a rest ih =>
    intro ab s hab hval
    have hr1v : (processOneAttr cfg a tp s).1.attribvalue = "" := rfl
    have hr1ab : (processOneAttr cfg a tp s).1.attribs =
        (if alookup
            (if cfg.lowerCaseAttributeNames then strLower a.1 else a.1) ab =
            none then
          some (ab ++
            [(if cfg.lowerCaseAttributeNames then strLower a.1 else a.1,
              a.2.1)])
        else some ab) := by
      unfold processOneAttr onattribendP
      rw [show (onattribdataP a.2.1 (onattribnameP cfg a.1 s)).attribs =
        some ab from hab]
      rw [show (onattribdataP a.2.1 (onattribnameP cfg a.1 s)).attribname =
        (if cfg.lowerCaseAttributeNames then strLower a.1 else a.1) from rfl]
      rw [show (onattribdataP a.2.1 (onattribnameP cfg a.1 s)).attribvalue =
        s.attribvalue ++ a.2.1 from rfl, hval, String.empty_append]
      repeat' split
      all_goals simp_all
    set k0 := (if cfg.lowerCaseAttributeNames then strLower a.1 else a.1)
      with hk0
    by_cases h0 : alookup k0 ab = none
    · rw [if_pos h0] at hr1ab
      obtain ⟨m, hm, hlook, hnd⟩ := ih (ab ++ [(k0, a.2.1)])
        (processOneAttr cfg a tp s).1 hr1ab hr1v
      refine ⟨m, ?_, ?_, ?_⟩
      · rw [processAttrs]
        exact hm
      · intro k
        rw [hlook k, alookup_append]
        by_cases hk : k0 = k
        · subst hk
          cases hab2 : alookup k0 ab with
          | none => simp [alookup, Option.orElse]
          | some w => exact absurd hab2 (by simp [h0])
        · cases hab2 : alookup k ab <;>
            simp [alookup, Option.orElse, hk, hab2]
      · intro hnd0
        refine hnd ?_
        rw [List.map_append]
        simp only [List.map_cons, List.map_nil]
        rw [List.nodup_append]
        refine ⟨hnd0, List.nodup_singleton k0, ?_⟩
        intro y hy hy2
        simp at hy2
        subst hy2
        exact (alookup_eq_none_iff k0 ab).mp h0 hy
    · rw [if_neg h0] at hr1ab
      obtain ⟨w, hw⟩ : ∃ w, alookup k0 ab = some w := by
        cases hab2 : alookup k0 ab with
        | none => exact absurd hab2 h0
        | some w => exact ⟨w, rfl⟩
      obtain ⟨m, hm, hlook, hnd⟩ := ih ab
        (processOneAttr cfg a tp s).1 hr1ab hr1v
      refine ⟨m, ?_, ?_, hnd⟩
      · rw [processAttrs]
        exact hm
      · intro k
        rw [hlook k]
        by_cases hk : k0 = k
        · subst hk
          rw [hw]
          simp [Option.orElse]
        · cases hab2 : alookup k ab <;>
            simp [alookup, Option.orElse, hk, hab2]

/--
C9: within one open-tag window (the attribute accumulator freshly created as
an empty map), after any list of attribute deliveries the accumulated
mapping associates every case-folded name with the value of its first
occurrence (association lookup over the delivered list) and contains no
duplicate names, so all later occurrences of a duplicated name are absent
from the mapping handed to the open-tag callback.
-/
theorem C9_duplicate_attributes (cfg : Config) (tp : TokPos)
    (l : List (String × String × AttrQuote)) (s : PState)
    (hab : s.attribs = some []) (hval : s.attribvalue = "") :
    ∃ m, (processAttrs cfg l tp s).1.attribs = some m ∧
      (∀ k, alookup k m =
        alookup k (l.map fun a =>
          (if cfg.lowerCaseAttributeNames then strLower a.1 else a.1,
           a.2.1))) ∧
      (m.map Prod.fst).Nodup := by
  obtain ⟨m, hm, hlook, hnd⟩ := processAttrs_attribs cfg tp l [] s hab hval
  refine ⟨m, hm, ?_, hnd (by simp)⟩
  intro k
  rw [hlook k]
  simp [alookup, Option.orElse]

/-- Witness for C9: the duplicate name a (from A case-folded and a) keeps
the first value 1 while the later occurrence is dropped. -/
theorem C9_duplicate_attributes_witness :
    (PState.attribs { initState with attribs := some [] } = some [] ∧
     PState.attribvalue { initState with attribs := some [] } = "" ∧
     (processAttrs cfgHtmlAll
        [("A", "1", AttrQuote.double), ("a", "2", AttrQuote.single),
         ("b", "3", AttrQuote.unquoted)] tp0
        { initState with attribs := some [] }).1.attribs =
       some [("a", "1"), ("b", "3")]) ∧
    (∃ m, (processAttrs cfgHtmlAll
        [("A", "1", AttrQuote.double), ("a", "2", AttrQuote.single),
         ("b", "3", AttrQuote.unquoted)] tp0
        { initState with attribs := some [] }).1.attribs = some m ∧
      (∀ k, alookup k m = alookup k
        ([("A", "1", AttrQuote.double), ("a", "2", AttrQuote.single),
          ("b", "3", AttrQuote.unquoted)].map fun a =>
          (if cfgHtmlAll.lowerCaseAttributeNames then strLower a.1 else a.1,
           a.2.1))) ∧
      (m.map Prod.fst).Nodup) :=
  ⟨⟨rfl, rfl, by decide⟩,
    C9_duplicate_attributes cfgHtmlAll tp0
      [("A", "1", AttrQuote.double), ("a", "2", AttrQuote.single),
       ("b", "3", AttrQuote.unquoted)]
      { initState with attribs := some [] } rfl rfl⟩

/-- Witness for C5: a stray close-p over the stack div, a stray close-p on
the empty stack, and a stray close-br on the empty stack. -/
theorem C5_stray_close_recovery_witness :
    (PState.stack { initState with stack := ["div"] } ≠ [] ∧
     stackIndexOf "p" (PState.stack { initState with stack := ["div"] }) =
       none ∧
     (onclosetagP cfgHtmlAll "p" tp0 { initState with stack := ["div"] }).2 =
       [PEvent.opentagname "p", PEvent.opentag "p" [],
         PEvent.closetag "p"] ∧
     (onclosetagP cfgHtmlAll "p" tp0
       { initState with stack := ["div"] }).1.stack =
       PState.stack { initState with stack := ["div"] }) ∧
    ((onclosetagP cfgHtmlAll "p" tp0 initState).2 =
       [PEvent.opentagname "p", PEvent.opentag "p" [],
         PEvent.closetag "p"]) ∧
    ((onclosetagP cfgHtmlAll "br" tp0 initState).2 =
       [PEvent.opentagname "br", PEvent.opentag "br" [],
         PEvent.closetag "br"]) := by
  have h1 := C5_stray_close_recovery cfgHtmlAll tp0
    { initState with stack := ["div"] } rfl rfl rfl rfl
  have h0 := C5_stray_close_recovery cfgHtmlAll tp0 initState rfl rfl rfl rfl
  exact ⟨⟨by decide, by decide, (h1.1 (by decide) (by decide)).1,
      (h1.1 (by decide) (by decide)).2.1⟩,
    (h0.2.1 rfl).1, (h0.2.2 (by decide)).1⟩

end Htmlparser
